import Mathlib

set_option maxHeartbeats 4000000

/-!
Shallow embedding of the detection / planning / conflict-simulation /
apply-undo pipeline of the attachment-organizer plugin (src/src/main.ts),
together with proofs about the claims of its specification.

Conventions of the embedding:
* JavaScript strings are modelled by `String`; all string manipulation is
  done on the underlying `List Char` so that every definition reduces in
  the kernel.  `toLowerCase`, `trim` and friends are modelled on the ASCII
  range (all inputs considered by the claims are ASCII).
* `normalizePath` is modelled after the reference implementation shipped in
  the repository's own test suite (main.test.ts): convert backslashes to
  slashes, collapse duplicate slashes, strip leading/trailing slashes.
  This is implemented equivalently as split-on-slash / drop empty pieces /
  rejoin.
* Host primitives (vault listing, metadata cache, link resolution, Unicode
  NFKC normalization) are external collaborators per the spec, and are
  modelled as oracle fields of a `Snapshot` structure.
* JavaScript `Map` objects are modelled as insertion-ordered association
  lists with unique keys; in-place mutation of an entry object becomes a
  keyed update of the list.
-/

namespace Org

/-! ## String helpers (List Char based) -/

/-- leading-match test: `leadsWith pre cs` is true iff `pre` is an initial
segment of `cs` (model of JavaScript `String.prototype.startsWith`). -/
def leadsWith : List Char → List Char → Bool
  | [], _ => true
  | _ :: _, [] => false
  | a :: as, b :: bs => a == b && leadsWith as bs

def strStarts (s pre : String) : Bool := leadsWith pre.data s.data

def strEnds (s suf : String) : Bool := leadsWith suf.data.reverse s.data.reverse

def toLowerStr (s : String) : String := String.mk (s.data.map Char.toLower)

/-- model of JavaScript `String.prototype.trim` (ASCII whitespace). -/
def jsTrim (s : String) : String :=
  String.mk (((s.data.dropWhile Char.isWhitespace).reverse.dropWhile Char.isWhitespace).reverse)

/-- split a char list at every occurrence of `c` (model of `split("/")`). -/
def splitChar (c : Char) : List Char → List (List Char)
  | [] => [[]]
  | x :: xs =>
    match splitChar c xs with
    | [] => [[]]
    | g :: gs => if x == c then [] :: g :: gs else (x :: g) :: gs

def joinWith (sep : String) : List String → String
  | [] => ""
  | [x] => x
  | x :: xs => x ++ sep ++ joinWith sep xs

def splitStr (c : Char) (s : String) : List String := (splitChar c s.data).map String.mk

/-- `normalizePath` after the reference implementation in main.test.ts:
replace backslashes by slashes, collapse duplicate slashes, strip leading
and trailing slashes.  Equivalently: split on `/`, drop empty pieces,
rejoin with `/`. -/
def normalizePath (s : String) : String :=
  let cs := s.data.map (fun ch => if ch == '\\' then '/' else ch)
  joinWith "/" (((splitChar '/' cs).map String.mk).filter (fun p => p != ""))

/-- `path.split("/").pop() ?? path` -/
def lastSeg (path : String) : String :=
  match (splitStr '/' path).getLast? with
  | some x => x
  | none => path

/-- `dirname`: `slice(0, lastIndexOf("/"))` on the normalized path, `""`
when there is no slash. -/
def dirname (path : String) : String :=
  let p := (normalizePath path).data
  match p.reverse.dropWhile (fun c => c != '/') with
  | [] => ""
  | _ :: rest => String.mk rest.reverse

/-- value of an ASCII hex digit (48..57 are `0`..`9`, 65..70 are `A`..`F`,
97..102 are `a`..`f`). -/
def hexVal (c : Char) : Option Nat :=
  let n := c.toNat
  if 48 ≤ n ∧ n ≤ 57 then some (n - 48)
  else if 65 ≤ n ∧ n ≤ 70 then some (n - 55)
  else if 97 ≤ n ∧ n ≤ 102 then some (n - 87)
  else none

/-- read one `%XX` escape from the front of the list. -/
def readPct : List Char → Option (Nat × List Char)
  | '%' :: h :: l :: rest =>
    match hexVal h, hexVal l with
    | some x, some y => some (x * 16 + y, rest)
    | _, _ => none
  | _ => none

/-- read `n` UTF-8 continuation bytes, each written as a `%XX` escape. -/
def readConts : Nat → List Char → Option (List Nat × List Char)
  | 0, cs => some ([], cs)
  | n + 1, cs =>
    match readPct cs with
    | some (b, rest) =>
      if 0x80 ≤ b ∧ b < 0xC0 then
        match readConts n rest with
        | some (bs, r) => some (b :: bs, r)
        | none => none
      else none
    | none => none

def utf8ContCount (b : Nat) : Option Nat :=
  if b < 0x80 then some 0
  else if b < 0xC0 then none
  else if b < 0xE0 then some 1
  else if b < 0xF0 then some 2
  else if b < 0xF8 then some 3
  else none

/-- combine a UTF-8 lead byte and its continuation bytes into a code point,
rejecting overlong encodings, surrogates and out-of-range values (the cases
where `decodeURIComponent` throws `URIError`). -/
def combineUtf8 (b : Nat) : List Nat → Option Nat
  | [] => if b < 0x80 then some b else none
  | [b2] =>
    if 0xC0 ≤ b ∧ b < 0xE0 then
      let cp := (b - 0xC0) * 64 + (b2 - 0x80)
      if 0x80 ≤ cp then some cp else none
    else none
  | [b2, b3] =>
    if 0xE0 ≤ b ∧ b < 0xF0 then
      let cp := (b - 0xE0) * 4096 + (b2 - 0x80) * 64 + (b3 - 0x80)
      if 0x800 ≤ cp ∧ ¬(0xD800 ≤ cp ∧ cp ≤ 0xDFFF) then some cp else none
    else none
  | [b2, b3, b4] =>
    if 0xF0 ≤ b ∧ b < 0xF8 then
      let cp := (b - 0xF0) * 262144 + (b2 - 0x80) * 4096 + (b3 - 0x80) * 64 + (b4 - 0x80)
      if 0x10000 ≤ cp ∧ cp ≤ 0x10FFFF then some cp else none
    else none
  | _ => none

/-- fuel-indexed main decoding loop; fuel is an upper bound on the number of
characters consumed, so `length + 1` fuel always suffices. -/
def pctDecodeLoop : Nat → List Char → Option (List Char)
  | 0, _ => none
  | _ + 1, [] => some []
  | fuel + 1, '%' :: h :: l :: rest =>
    match readPct ('%' :: h :: l :: rest) with
    | none => none
    | some (b, r1) =>
      match utf8ContCount b with
      | none => none
      | some k =>
        match readConts k r1 with
        | none => none
        | some (conts, r2) =>
          match combineUtf8 b conts with
          | none => none
          | some cp =>
            if cp < 0x110000 ∧ ¬(0xD800 ≤ cp ∧ cp ≤ 0xDFFF) then
              match pctDecodeLoop fuel r2 with
              | some t => some (Char.ofNat cp :: t)
              | none => none
            else none
  | _ + 1, '%' :: _ => none
  | fuel + 1, c :: rest =>
    match pctDecodeLoop fuel rest with
    | some t => some (c :: t)
    | none => none

/-- model of JavaScript `decodeURIComponent`: `none` models a thrown
`URIError`. -/
def decodeURIComponentJs (s : String) : Option String :=
  match pctDecodeLoop (s.data.length + 1) s.data with
  | some cs => some (String.mk cs)
  | none => none

/-- text strictly before the first occurrence of `ch`
(`indexOf` + `slice(0, i)`, the whole string when absent). -/
def cutAt (ch : Char) (cs : List Char) : List Char := cs.takeWhile (fun c => c != ch)

/-! ## Data model (ported from main.ts) -/

inductive Zone
  | A
  | B
  | C
  | OUT
deriving DecidableEq

/-- "note-md" | "attachment-file" | "attachment-md" | "unknown" -/
inductive FileKind
  | noteMd
  | attachmentFile
  | attachmentMd
  | unknown
deriving DecidableEq

structure Backlink where
  fromNote : String
  raw : String
  cleaned : String
  explicitPath : Option String
deriving DecidableEq

/-- the `Action` tagged union; the optional `explicit?: boolean` field is
modelled as a `Bool` whose default (absent) value is `false`, matching the
only consumer `!!e.action.explicit`. -/
inductive Action
  | keep
  | moveToB (reason : String)
  | moveTo (target : String) (reason : String) (explicit : Bool)
  | unknown (reason : String)
deriving DecidableEq

/-- `FileEntry`; absent optional fields are modelled by `[]` / `none` /
`false` defaults, matching how the code consumes them. -/
structure FileEntry where
  path : String
  displayName : String
  zone : Zone
  kind : FileKind
  referencedByNotes : List Backlink
  action : Action
  tags : List String
  conflictWith : List String
  virtualFrom : Option String
  isPreview : Bool
deriving DecidableEq

inductive BacklinkScope
  | zoneAOnly
  | wholeVault
deriving DecidableEq

inductive GlobalNameCheck
  | off
  | onIgnoreExplicit
  | onEvenExplicit
deriving DecidableEq

inductive MultiBacklinkPolicy
  | unchanged
  | lca
  | pickFirst
deriving DecidableEq

inductive PlacementMode
  | vaultFolder
  | specifiedFolder
  | sameFolderAsNote
  | subfolderUnderNote
deriving DecidableEq

structure LinkSources where
  links : Bool
  embeds : Bool
  frontmatter : Bool

structure Placement where
  mode : PlacementMode
  specifiedFolder : String
  subfolderName : String

/-- `Settings`; the attachment-detection rules are the *compiled* regular
expressions, modelled as opaque-to-the-claims predicate oracles (the
`RegExp` engine is a host facility). -/
structure Settings where
  zoneA : String
  zoneB : String
  extraScanFolders : List String
  extraScanEnabled : Bool
  recursive : Bool
  backlinkScope : BacklinkScope
  linkSources : LinkSources
  placement : Placement
  multiBacklinkPolicy : MultiBacklinkPolicy
  globalNameCheck : GlobalNameCheck
  attachmentRules : List (String → Bool)
  planOutAttachments : Bool

structure MetaLinks where
  links : List String
  embeds : List String
  frontmatterLinks : List String

/-- One consistent in-memory snapshot of the vault plus the host-provided
primitives (spec §6: list/read/rename/link-resolution are external
collaborators).  `listFolder ""` is the vault root walk.  Vault paths are
assumed stored in their canonical normalized form, as the host guarantees,
so `getAbstractFileByPath p` is membership of `p` in `files` and the found
file's own path equals `p`. -/
structure Snapshot where
  files : List String
  folders : List String
  listFolder : String → Bool → List String
  markdownFiles : List String
  meta : String → Option MetaLinks
  resolveLink : String → String → Option String
  nfkc : String → String

/-! ## Small helpers from main.ts -/

def isAttachmentKind (k : FileKind) : Bool :=
  match k with
  | .attachmentFile => true
  | .attachmentMd => true
  | _ => false

def isAttachmentMd (s : Settings) (path : String) : Bool :=
  let p := normalizePath path
  if !(strEnds (toLowerStr p) ".md") then false
  else s.attachmentRules.any (fun r => r p)

def kindOf (s : Settings) (path : String) : FileKind :=
  if strEnds (toLowerStr path) ".md" then
    if isAttachmentMd s path then .attachmentMd else .noteMd
  else .attachmentFile

def isNoteMd (s : Settings) (path : String) : Bool :=
  strEnds (toLowerStr path) ".md" && !isAttachmentMd s path

/-- containment test used by `zoneOf`: nonempty root, and the path equals
the root or starts with `root + "/"`. -/
def inRoot (root p : String) : Bool :=
  root != "" && (p == root || strStarts p (root ++ "/"))

def zoneOf (s : Settings) (path : String) : Zone :=
  let p := normalizePath path
  let b := normalizePath s.zoneB
  let a := normalizePath s.zoneA
  if inRoot b p then .B
  else if s.extraScanEnabled &&
      s.extraScanFolders.any (fun folder => inRoot (normalizePath folder) p) then .C
  else if a == "" then .A
  else if p == a || strStarts p (a ++ "/") then .A
  else .OUT

def isExternal (raw : String) : Bool :=
  let s := toLowerStr (jsTrim raw)
  strStarts s "http://" || strStarts s "https://" || strStarts s "mailto:" || strStarts s "file://"

/-- `parseLink`: strip alias, heading, block-ref and query, trim, convert
backslashes, percent-decode once when a `%` is present (keeping the
undecoded text when decoding throws), and discard empty results. -/
def parseLink (raw : String) : Option String :=
  let s0 := jsTrim raw
  if s0 == "" then none
  else
    let s1 := cutAt '?' (cutAt '^' (cutAt '#' (cutAt '|' s0.data)))
    let s2 := String.mk ((jsTrim (String.mk s1)).data.map (fun c => if c == '\\' then '/' else c))
    let s3 :=
      if s2.data.contains '%' then
        match decodeURIComponentJs s2 with
        | some d => d
        | none => s2
      else s2
    if s3 == "" then none else some s3

def normalizeExplicitToVaultPath (explicitRaw fromNotePath : String) : String :=
  let s0 := String.mk ((jsTrim explicitRaw).data.map (fun c => if c == '\\' then '/' else c))
  let s := if strStarts s0 "/" then String.mk (s0.data.drop 1) else s0
  if strStarts s "./" || strStarts s "../" then
    let base := dirname fromNotePath
    if base != "" then normalizePath (base ++ "/" ++ s) else normalizePath s
  else normalizePath s

def folderKey (path : String) : String := toLowerStr (dirname path)

/-- name key: lowercased basename, NFKC-normalized via the host oracle. -/
def nameKey (snap : Snapshot) (path : String) : String :=
  snap.nfkc (toLowerStr (lastSeg path))

def pathSegs (p : String) : List String :=
  (splitStr '/' (normalizePath p)).filter (fun x => x != "")

/-- the `while` loop of `lcaFolder`: common initial segment of two
segment lists. -/
def lcpSegs : List String → List String → List String
  | a :: as, b :: bs => if a == b then a :: lcpSegs as bs else []
  | _, _ => []

def lcaSegsOf (folders : List String) : List String :=
  match folders.map pathSegs with
  | [] => []
  | h :: t => t.foldl lcpSegs h

def lcaFolder (folders : List String) : String :=
  if folders.isEmpty then "" else joinWith "/" (lcaSegsOf folders)

def pushTag (tags : List String) (t : String) : List String :=
  if tags.contains t then tags else tags ++ [t]

def sanitizeConflictTag (tag : String) : String :=
  if tag == "conflict-target-occupied" || tag == "conflict-ambiguous-name" then tag
  else "conflict-target-occupied"

def isConflict (e : FileEntry) : Bool :=
  e.tags.contains "conflict-target-occupied" || e.tags.contains "conflict-ambiguous-name"

def markOf (e : FileEntry) : String :=
  match e.kind with
  | .noteMd => "-"
  | _ =>
    if e.tags.contains "missing" then "M"
    else if isConflict e then "C"
    else
      match e.action with
      | .keep => "K"
      | .moveTo _ _ _ => "R"
      | _ => "B"

/-! ## Planning (main.ts `planTargetFor*`, `targetFolderFromPolicy`, `targetOf`) -/

/-- JavaScript truthiness of an optional string (`undefined` and `""` are
falsy); several call sites in main.ts test `explicitPath` this way. -/
def optTruthy (o : Option String) : Bool := o.getD "" != ""

def targetFolderFromPolicy (s : Settings) (baseFolder : String) : Option String :=
  match s.placement.mode with
  | .vaultFolder => some ""
  | .specifiedFolder => some (normalizePath s.placement.specifiedFolder)
  | .sameFolderAsNote => some (normalizePath baseFolder)
  | .subfolderUnderNote =>
    let sub := normalizePath s.placement.subfolderName
    if sub == "" then some (normalizePath baseFolder)
    else if baseFolder == "" then some (normalizePath sub)
    else some (normalizePath (baseFolder ++ "/" ++ sub))

def planTargetForOneBacklink (s : Settings) (e : FileEntry) (bl : Backlink) : Option Action :=
  let name := lastSeg e.path
  if optTruthy bl.explicitPath then
    some (.moveTo (bl.explicitPath.getD "") "single-backlink-explicit" true)
  else
    match targetFolderFromPolicy s (dirname bl.fromNote) with
    | none => none
    | some tf =>
      some (.moveTo (normalizePath (if tf != "" then tf ++ "/" ++ name else name))
        "single-backlink-policy" false)

def planTargetForMultiBacklink (s : Settings) (e : FileEntry) : Option Action :=
  let bls := e.referencedByNotes
  if bls.length < 2 then none
  else if s.multiBacklinkPolicy = .unchanged then none
  else
    let name := lastSeg e.path
    if s.multiBacklinkPolicy = .pickFirst then
      match bls with
      | [] => none
      | bl0 :: _ =>
        match targetFolderFromPolicy s (dirname bl0.fromNote) with
        | none => none
        | some tf =>
          some (.moveTo (normalizePath (if tf != "" then tf ++ "/" ++ name else name))
            "multi-pick-first" false)
    else
      let folders := bls.map (fun x => dirname x.fromNote)
      match targetFolderFromPolicy s (lcaFolder folders) with
      | none => none
      | some tf =>
        some (.moveTo (normalizePath (if tf != "" then tf ++ "/" ++ name else name))
          "multi-lca" false)

def targetOf (s : Settings) (e : FileEntry) : Option String :=
  match e.action with
  | .moveTo t _ _ => some (normalizePath t)
  | .moveToB _ =>
    let b := normalizePath s.zoneB
    if b == "" then none
    else some (normalizePath (b ++ "/" ++ lastSeg e.path))
  | _ => none

/-! ## Entry map (the `Map<string, FileEntry>` of `detectReport`) -/

abbrev EntryMap := List FileEntry

def findEntry (m : EntryMap) (p : String) : Option FileEntry :=
  m.find? (fun e => e.path == p)

/-- mutate the (unique) entry whose key is `p` in place. -/
def updateEntry (m : EntryMap) (p : String) (f : FileEntry → FileEntry) : EntryMap :=
  m.map (fun e => if e.path == p then f e else e)

def mkPlainEntry (s : Settings) (p : String) : FileEntry :=
  { path := p
    displayName := lastSeg p
    zone := zoneOf s p
    kind := kindOf s p
    referencedByNotes := []
    action := .keep
    tags := []
    conflictWith := []
    virtualFrom := none
    isPreview := false }

/-- `ensure(path)` with no init: normalize the key, insert a fresh entry if
absent, otherwise leave the existing entry unchanged. -/
def ensurePlain (s : Settings) (m : EntryMap) (path : String) : EntryMap :=
  let p := normalizePath path
  if m.any (fun e => e.path == p) then m else m ++ [mkPlainEntry s p]

/-! ## Step 2: backlink scan -/

structure ScanSt where
  map : EntryMap
  missing : List (String × List Backlink)

/-- accumulate an unresolved backlink under its grouping key
(insertion-ordered `Map<string, Backlink[]>`). -/
def addMissing (ms : List (String × List Backlink)) (key : String) (bl : Backlink) :
    List (String × List Backlink) :=
  if ms.any (fun kv => kv.1 == key) then
    ms.map (fun kv => if kv.1 == key then (kv.1, kv.2 ++ [bl]) else kv)
  else ms ++ [(key, [bl])]

def resolveToFileByObsidian (snap : Snapshot) (linkKey fromMd : String) : Option String :=
  match snap.resolveLink linkKey fromMd with
  | some d => some d
  | none =>
    if strStarts linkKey "/" then
      let noSlash := String.mk (linkKey.data.drop 1)
      match snap.resolveLink noSlash fromMd with
      | some d => some d
      | none =>
        let q := normalizePath noSlash
        if snap.files.contains q then some q else none
    else none

/-- one raw link of one note (the body of the inner loop of step 2). -/
def processRaw (snap : Snapshot) (s : Settings) (fromNote : String) (st : ScanSt)
    (raw : String) : ScanSt :=
  match parseLink raw with
  | none => st
  | some cleaned =>
    if cleaned == "" then st
    else if isExternal cleaned then st
    else
      let isExplicit := cleaned.data.contains '/'
      let explicitDesired : Option String :=
        if isExplicit then some (normalizeExplicitToVaultPath cleaned fromNote) else none
      let dest : Option String :=
        if optTruthy explicitDesired && snap.files.contains (explicitDesired.getD "") then
          explicitDesired
        else
          match resolveToFileByObsidian snap cleaned fromNote with
          | some d => some d
          | none =>
            if optTruthy explicitDesired then
              resolveToFileByObsidian snap (lastSeg (explicitDesired.getD "")) fromNote
            else none
      let bl : Backlink :=
        { fromNote := fromNote, raw := raw, cleaned := cleaned, explicitPath := explicitDesired }
      match dest with
      | some d =>
        let m1 := ensurePlain s st.map d
        let m2 := updateEntry m1 (normalizePath d) (fun e =>
          let e1 := { e with zone := zoneOf s e.path, kind := kindOf s e.path }
          if e1.referencedByNotes.any (fun x => x.fromNote == bl.fromNote) then e1
          else { e1 with referencedByNotes := e1.referencedByNotes ++ [bl] })
        { st with map := m2 }
      | none =>
        let key := if optTruthy explicitDesired then explicitDesired.getD "" else cleaned
        { st with missing := addMissing st.missing key bl }

def processNote (snap : Snapshot) (s : Settings) (st : ScanSt) (notePath : String) : ScanSt :=
  match snap.meta notePath with
  | none => st
  | some c =>
    let raws := (if s.linkSources.links then c.links else [])
      ++ (if s.linkSources.embeds then c.embeds else [])
      ++ (if s.linkSources.frontmatter then c.frontmatterLinks else [])
    raws.foldl (processRaw snap s notePath) st

/-- `ensure("__missing/" + key, init)`: creates or overwrites the synthetic
missing entry with the init fields, like `Object.assign`. -/
def ensureMissingEntry (m : EntryMap) (key : String) (bls : List Backlink) : EntryMap :=
  let p := normalizePath ("__missing/" ++ key)
  if m.any (fun e => e.path == p) then
    updateEntry m p (fun e =>
      { e with displayName := lastSeg key, zone := .OUT, kind := .unknown,
               referencedByNotes := bls, action := .unknown "missing", tags := ["missing"] })
  else
    m ++ [{ path := p, displayName := lastSeg key, zone := .OUT, kind := .unknown,
            referencedByNotes := bls, action := .unknown "missing", tags := ["missing"],
            conflictWith := [], virtualFrom := none, isPreview := false }]

/-! ## Step 1: inventory scan -/

/-- `getFolder`: the folder exists in the vault under its normalized path. -/
def getFolderPath (snap : Snapshot) (path : String) : Option String :=
  let p := normalizePath path
  if p == "" then none
  else if snap.folders.contains p then some p else none

/-- depth-first file walk of one zone folder, deduplicated against files
already seen (`scanFolder` with its `seen` set; the actual child walk is the
host's `listFolder` oracle, `""` meaning the vault root). -/
def scanFolderInto (snap : Snapshot) (s : Settings) (out : List String)
    (folderPath : String) : List String :=
  (snap.listFolder folderPath s.recursive).foldl
    (fun o f => if o.contains f then o else o ++ [f]) out

def scanInventoryFiles (snap : Snapshot) (s : Settings) : List String :=
  let aP := normalizePath s.zoneA
  let rootFolder := if aP == "" then "" else (if snap.folders.contains aP then aP else "")
  let afterA := scanFolderInto snap s [] rootFolder
  if aP == "" then afterA
  else
    let afterB :=
      match getFolderPath snap s.zoneB with
      | some bP => scanFolderInto snap s afterA bP
      | none => afterA
    if !s.extraScanEnabled then afterB
    else
      let folders := s.extraScanFolders.filter (fun f => jsTrim f != "")
      if folders.isEmpty then
        let bP := normalizePath s.zoneB
        snap.files.foldl (fun o f =>
          if o.contains f then o
          else
            let p := normalizePath f
            if aP != "" && (p == aP || strStarts p (aP ++ "/")) then o
            else if bP != "" && (p == bP || strStarts p (bP ++ "/")) then o
            else o ++ [f]) afterB
      else
        folders.foldl (fun o fp =>
          match getFolderPath snap fp with
          | some fpp => scanFolderInto snap s o fpp
          | none => o) afterB

def listNotesByScope (snap : Snapshot) (s : Settings) : List String :=
  let notes := snap.markdownFiles.filter (fun f => isNoteMd s f)
  match s.backlinkScope with
  | .wholeVault => notes
  | .zoneAOnly => notes.filter (fun f => match zoneOf s f with | .A => true | _ => false)

/-! ## Step 3: per-entry planning -/

def planEntry (s : Settings) (e : FileEntry) : FileEntry :=
  if !isAttachmentKind e.kind then e
  else if e.tags.contains "missing" then e
  else
    match e.zone with
    | .B => e
    | z =>
      if (match z with | .OUT => true | _ => false) && !s.planOutAttachments then
        { e with action := .keep }
      else
        match e.referencedByNotes with
        | [] => { e with action := .moveToB "orphan", tags := pushTag e.tags "orphan" }
        | [bl] => { e with action := (planTargetForOneBacklink s e bl).getD .keep }
        | _ => { e with action := (planTargetForMultiBacklink s e).getD .keep }

/-! ## Step 4: conflict simulation (`simulatePreviewAndMarkConflicts`) -/

abbrev SIdx := List (String × String)

def aget (l : SIdx) (k : String) : Option String :=
  (l.find? (fun kv => kv.1 == k)).map (fun kv => kv.2)

def aset (l : SIdx) (k v : String) : SIdx :=
  if l.any (fun kv => kv.1 == k) then
    l.map (fun kv => if kv.1 == k then (k, v) else kv)
  else l ++ [(k, v)]

def adel (l : SIdx) (k : String) : SIdx := l.filter (fun kv => kv.1 != k)

structure SimSt where
  map : EntryMap
  plannedTargets : SIdx
  plannedName : SIdx
  plannedFolderName : SIdx
  preview : List FileEntry

def ensureConflictUpd (tag : String) (e : FileEntry) : FileEntry :=
  { e with tags := pushTag e.tags (sanitizeConflictTag tag) }

def keepUpd (e : FileEntry) : FileEntry := { e with action := .keep }

/-- `rollbackPlanned`: remove the entry's registered target from all three
indices (first match wins, then `break`), then tag it and revert it to
Keep. -/
def rollbackPlanned (snap : Snapshot) (st : SimSt) (entryPath tag : String) : SimSt :=
  match findEntry st.map entryPath with
  | none => st
  | some _ =>
    let st1 :=
      match st.plannedTargets.find? (fun kv => kv.2 == entryPath) with
      | none => st
      | some tv =>
        { st with
          plannedTargets := adel st.plannedTargets tv.1
          plannedFolderName := adel st.plannedFolderName (folderKey tv.1 ++ "::" ++ nameKey snap tv.1)
          plannedName := adel st.plannedName (nameKey snap tv.1) }
    { st1 with map := updateEntry st1.map entryPath (fun e => keepUpd (ensureConflictUpd tag e)) }

def markBothAndRollback (snap : Snapshot) (st : SimSt) (aPath bPath tag : String) : SimSt :=
  let st1 := { st with map := updateEntry st.map aPath (fun e => keepUpd (ensureConflictUpd tag e)) }
  match findEntry st1.map bPath with
  | none => st1
  | some _ =>
    let st2 :=
      { st1 with map := updateEntry st1.map bPath (fun e => keepUpd (ensureConflictUpd tag e)) }
    rollbackPlanned snap st2 bPath tag

/-- the global-name-check gate of case (4):
`gmode !== "off" && (gmode === "on-even-explicit" || !explicitMove)`. -/
def shouldCheckGlobalFor (s : Settings) (explicitMove : Bool) : Bool :=
  if s.globalNameCheck = .off then false
  else if s.globalNameCheck = .onEvenExplicit then true
  else !explicitMove

/-- one candidate of the simulation loop.  The candidate is re-read from
the live map because earlier iterations may have reverted it. -/
def simStep (snap : Snapshot) (s : Settings) (st : SimSt) (candPath : String) : SimSt :=
  match findEntry st.map candPath with
  | none => st
  | some e =>
    if isConflict e then st
    else
      match targetOf s e with
      | none => { st with map := updateEntry st.map candPath keepUpd }
      | some target =>
        if normalizePath target == normalizePath e.path then
          { st with map := updateEntry st.map candPath keepUpd }
        else
          let explicitMove := match e.action with | .moveTo _ _ ex => ex | _ => false
          match aget st.plannedTargets target with
          | some occupiedBy => markBothAndRollback snap st candPath occupiedBy "conflict-target-occupied"
          | none =>
            if snap.files.contains target then
              let cto := fun (x : FileEntry) => keepUpd (ensureConflictUpd "conflict-target-occupied" x)
              let st1 := { st with map := updateEntry st.map candPath cto }
              match findEntry st1.map target with
              | some _ => { st1 with map := updateEntry st1.map target cto }
              | none => st1
            else
              let fk := folderKey target
              let nk := nameKey snap target
              let fnk := fk ++ "::" ++ nk
              match aget st.plannedFolderName fnk with
              | some folderHit => markBothAndRollback snap st candPath folderHit "conflict-target-occupied"
              | none =>
                let shouldCheckGlobal : Bool := shouldCheckGlobalFor s explicitMove
                let ambiguous : Option SimSt :=
                  if shouldCheckGlobal then
                    match aget st.plannedName nk with
                    | some plannedHit =>
                      some (markBothAndRollback snap st candPath plannedHit "conflict-ambiguous-name")
                    | none =>
                      let exist := snap.files.filter (fun f => nameKey snap f == nk)
                      let others := exist.filter (fun f => normalizePath f != normalizePath e.path)
                      if others.isEmpty then none
                      else some { st with map := updateEntry st.map candPath (fun x =>
                        keepUpd { ensureConflictUpd "conflict-ambiguous-name" x with
                                  conflictWith := others.take 3 }) }
                  else none
                match ambiguous with
                | some st' => st'
                | none =>
                  let st1 := { st with
                    plannedTargets := aset st.plannedTargets target candPath
                    plannedFolderName := aset st.plannedFolderName fnk candPath
                    plannedName :=
                      if shouldCheckGlobal then aset st.plannedName nk candPath else st.plannedName }
                  { st1 with preview := st1.preview ++ [{ e with
                      path := target
                      displayName := lastSeg target
                      zone := zoneOf s target
                      virtualFrom := some e.path
                      isPreview := true }] }

/-- code-point comparison of strings (model of `localeCompare < 0` on the
ASCII inputs considered; candidate paths are pairwise distinct keys, so any
total order yields the same deterministic list). -/
def charListLt : List Char → List Char → Bool
  | [], [] => false
  | [], _ :: _ => true
  | _ :: _, [] => false
  | a :: as, b :: bs =>
    if a.toNat < b.toNat then true
    else if b.toNat < a.toNat then false
    else charListLt as bs

def strLt (a b : String) : Bool := charListLt a.data b.data

def insertByPath (e : FileEntry) : List FileEntry → List FileEntry
  | [] => [e]
  | b :: bs => if strLt e.path b.path then e :: b :: bs else b :: insertByPath e bs

def sortByPath (l : List FileEntry) : List FileEntry := l.foldr insertByPath []

/-- `simulatePreviewAndMarkConflicts`.  A preview entry is a shallow copy
of its source entry: its `tags` field is the *same array object* as the
source's, so conflict tags pushed onto a source after its preview was
emitted are visible through the preview copy, while its replaced `action`
reference is not.  This aliasing is reproduced by rebinding every preview
entry's `tags` to the final tags of its source entry. -/
def simulate (snap : Snapshot) (s : Settings) (m : EntryMap) : EntryMap × List FileEntry :=
  let candidates := sortByPath (((m.filter (fun e => isAttachmentKind e.kind)).filter
      (fun e => !(e.tags.contains "missing"))).filter
      (fun e => match e.action with | .moveToB _ => true | .moveTo _ _ _ => true | _ => false))
  let st0 : SimSt :=
    { map := m, plannedTargets := [], plannedName := [], plannedFolderName := [], preview := [] }
  let st := (candidates.map (fun e => e.path)).foldl (simStep snap s) st0
  (st.map, st.preview.map (fun p =>
    match p.virtualFrom with
    | some src =>
      match findEntry st.map src with
      | some e0 => { p with tags := e0.tags }
      | none => p
    | none => p))

/-! ## Report assembly and caching -/

structure Stats where
  notes : Nat
  attachments : Nat
  todo : Nat
  missing : Nat
  conflicts : Nat
  total : Nat
deriving DecidableEq

structure DetectReport where
  entries : List FileEntry
  preview : List FileEntry
  stats : Stats
deriving DecidableEq

def statsOf (m : EntryMap) : Stats :=
  { notes := (m.filter (fun e => match e.kind with | .noteMd => true | _ => false)).length
    attachments := (m.filter (fun e => isAttachmentKind e.kind)).length
    todo := (m.filter (fun e =>
      let mk := markOf e
      mk == "B" || mk == "R" || mk == "C" || mk == "M")).length
    missing := (m.filter (fun e => e.tags.contains "missing")).length
    conflicts := (m.filter (fun e => isConflict e)).length
    total := m.length }

def reportEntriesOf (m : EntryMap) (previewPaths : List String) : List FileEntry :=
  m.filter (fun e =>
    if strStarts e.path "__missing/" then true
    else if (match e.zone with | .A => true | .B => true | .C => true | .OUT => false) then true
    else
      let isPlanned := match e.action with | .moveToB _ => true | .moveTo _ _ _ => true | _ => false
      !e.referencedByNotes.isEmpty || isConflict e || isPlanned || previewPaths.contains e.path)

/-- one full detect pass over a snapshot (the body of `detectReport` after
the cache check). -/
def detectOnce (snap : Snapshot) (s : Settings) : DetectReport :=
  let m1 := (scanInventoryFiles snap s).foldl (ensurePlain s) ([] : EntryMap)
  let st2 := (listNotesByScope snap s).foldl (processNote snap s)
    ({ map := m1, missing := [] } : ScanSt)
  let m3 := st2.missing.foldl (fun m kv => ensureMissingEntry m kv.1 kv.2) st2.map
  let m4 := m3.map (planEntry s)
  let res := simulate snap s m4
  let previewPaths := res.2.map (fun p => normalizePath p.path)
  { entries := reportEntriesOf res.1 previewPaths
    preview := res.2
    stats := statsOf res.1 }

structure CacheSt where
  dirty : Bool
  lastReport : Option DetectReport

/-- `detectReport(force)` with its `dirty` / `lastReport` cache. -/
def detectCached (snap : Snapshot) (s : Settings) (force : Bool) (st : CacheSt) :
    DetectReport × CacheSt :=
  match st.lastReport with
  | some r =>
    if !force && !st.dirty then (r, st)
    else
      let r2 := detectOnce snap s
      (r2, { dirty := false, lastReport := some r2 })
  | none =>
    let r2 := detectOnce snap s
    (r2, { dirty := false, lastReport := some r2 })

/-! ## Apply plan and undo history (`applyPlan`) -/

structure Move where
  fromPath : String
  toPath : String
deriving DecidableEq

structure UndoEntry where
  timestamp : Nat
  moves : List Move
deriving DecidableEq

def maxUndoHistory : Nat := 10

/-- host `renameFile`: membership-level model of moving a vault file. -/
def renameInVault (vault : List String) (mv : Move) : List String :=
  vault.erase mv.fromPath ++ [mv.toPath]

structure ApplySt where
  vault : List String
  ok : Nat
  fail : Nat
  succ : List Move

/-- one move of the `applyPlan` loop: a missing source is recorded as a
failure (`file not found`); a rename that throws (destination already
present) is caught and recorded as a failure; either way the loop
continues.  Folder creation is idempotent and never fails in the model. -/
def applyMoveStep (st : ApplySt) (mv : Move) : ApplySt :=
  if !st.vault.contains mv.fromPath then { st with fail := st.fail + 1 }
  else if st.vault.contains mv.toPath then { st with fail := st.fail + 1 }
  else { st with vault := renameInVault st.vault mv, ok := st.ok + 1, succ := st.succ ++ [mv] }

/-- the `while (length > MAX) shift()` trim: drop oldest entries from the
front until at most `maxUndoHistory` remain. -/
def trimHistory (h : List UndoEntry) : List UndoEntry := h.drop (h.length - maxUndoHistory)

structure ApplyOut where
  ok : Nat
  fail : Nat
  vault : List String
  history : List UndoEntry
deriving DecidableEq

/-- the per-move half of `applyPlan`: run every move, then push one
`UndoEntry` holding exactly the successful moves iff any move succeeded. -/
def applyMoves (vault : List String) (moves : List Move) (history : List UndoEntry)
    (now : Nat) : ApplyOut :=
  let r := moves.foldl applyMoveStep { vault := vault, ok := 0, fail := 0, succ := [] }
  let h :=
    if r.succ.isEmpty then history
    else trimHistory (history ++ [{ timestamp := now, moves := r.succ }])
  { ok := r.ok, fail := r.fail, vault := r.vault, history := h }

/-- reference recursion: the moves of the batch that succeed, given the
initial vault (a move succeeds iff its source exists and its destination
does not, in the vault state left by the previous moves). -/
def successfulMovesFrom (vault : List String) : List Move → List Move
  | [] => []
  | mv :: ms =>
    if vault.contains mv.fromPath && !vault.contains mv.toPath then
      mv :: successfulMovesFrom (renameInVault vault mv) ms
    else successfulMovesFrom vault ms

/-! ## Concrete snapshots used by the scenario theorems -/

/-- default-like settings: vault root as Workspace, staging folder `Draft`,
placement `subfolder-under-note` named `attachments`. -/
def baseSettings : Settings :=
  { zoneA := ""
    zoneB := "Draft"
    extraScanFolders := []
    extraScanEnabled := false
    recursive := true
    backlinkScope := .zoneAOnly
    linkSources := { links := true, embeds := true, frontmatter := true }
    placement := { mode := .subfolderUnderNote, specifiedFolder := "", subfolderName := "attachments" }
    multiBacklinkPolicy := .unchanged
    globalNameCheck := .onIgnoreExplicit
    attachmentRules := []
    planOutAttachments := false }

/-- three orphan attachments that all plan toward `Draft/x.png`), with the
global name check disabled. -/
def snapThreeOrphans : Snapshot :=
  { files := ["a/x.png", "b/x.png", "c/x.png"]
    folders := ["a", "b", "c"]
    listFolder := fun p _ => if p == "" then ["a/x.png", "b/x.png", "c/x.png"] else []
    markdownFiles := []
    meta := fun _ => none
    resolveLink := fun _ _ => none
    nfkc := fun x => x }

def settingsNoGlobal : Settings := { baseSettings with globalNameCheck := .off }

/-- two orphan attachments that both plan toward `Draft/x.png`. -/
def snapTwoOrphans : Snapshot :=
  { files := ["a/x.png", "b/x.png"]
    folders := ["a", "b"]
    listFolder := fun p _ => if p == "" then ["a/x.png", "b/x.png"] else []
    markdownFiles := []
    meta := fun _ => none
    resolveLink := fun _ _ => none
    nfkc := fun x => x }

/-- note `n/a.md` references `p/i.png` (resolved by the host), so `p/i.png`
plans a real move toward `n/i.png`; a second attachment already sits at
`n/i.png` and is referenced from `n/b.md` (so it keeps its place). -/
def snapOccupied : Snapshot :=
  { files := ["n/a.md", "n/b.md", "n/i.png", "p/i.png"]
    folders := ["n", "p"]
    listFolder := fun p _ => if p == "" then ["n/a.md", "n/b.md", "n/i.png", "p/i.png"] else []
    markdownFiles := ["n/a.md", "n/b.md"]
    meta := fun p =>
      if p == "n/a.md" then some { links := ["i.png"], embeds := [], frontmatterLinks := [] }
      else if p == "n/b.md" then some { links := ["i.png"], embeds := [], frontmatterLinks := [] }
      else none
    resolveLink := fun k fromN =>
      if k == "i.png" && fromN == "n/a.md" then some "p/i.png"
      else if k == "i.png" && fromN == "n/b.md" then some "n/i.png"
      else none
    nfkc := fun x => x }

def settingsSameFolder : Settings :=
  { baseSettings with placement := { mode := .sameFolderAsNote, specifiedFolder := "", subfolderName := "" } }

/-- one note with two raw links that resolve to the same attachment, the
second with a different explicit path. -/
def snapTwoLinks : Snapshot :=
  { files := ["n.md", "p/i.png"]
    folders := ["p"]
    listFolder := fun p _ => if p == "" then ["n.md", "p/i.png"] else []
    markdownFiles := ["n.md"]
    meta := fun p =>
      if p == "n.md" then some { links := ["p/i.png", "o/i.png"], embeds := [], frontmatterLinks := [] }
      else none
    resolveLink := fun k fromN =>
      if k == "o/i.png" && fromN == "n.md" then some "p/i.png" else none
    nfkc := fun x => x }

/-- the empty vault (used to witness the caching theorem). -/
def snapEmpty : Snapshot :=
  { files := []
    folders := []
    listFolder := fun _ _ => []
    markdownFiles := []
    meta := fun _ => none
    resolveLink := fun _ _ => none
    nfkc := fun x => x }

/-! ## Spec-side definitions and concrete instances for the claims -/

def settingsPickFirst : Settings := { baseSettings with multiBacklinkPolicy := .pickFirst }

def blExplicit : Backlink :=
  { fromNote := "notes/a.md", raw := "pics/img.png", cleaned := "pics/img.png",
    explicitPath := some "pics/img.png" }

def blPlain : Backlink :=
  { fromNote := "notes/b.md", raw := "img.png", cleaned := "img.png", explicitPath := none }

def blPlain2 : Backlink :=
  { fromNote := "notes/c.md", raw := "img.png", cleaned := "img.png", explicitPath := none }

def entryTwoBacklinks : FileEntry :=
  { path := "x/img.png", displayName := "img.png", zone := .A, kind := .attachmentFile,
    referencedByNotes := [blExplicit, blPlain], action := .keep, tags := [],
    conflictWith := [], virtualFrom := none, isPreview := false }

def entryTwoPlain : FileEntry :=
  { entryTwoBacklinks with referencedByNotes := [blPlain, blPlain2] }

def actionTarget : Action → Option String
  | .moveTo t _ _ => some t
  | _ => none

/-- Modelled from the spec: fixed priority B, then any configured
extra-scan folder (C), then A, else OUT; containment is equality with the
root or a `root + "/"` prefix; an empty A root makes everything not in B or
C classify as A. -/
def zoneSpec (s : Settings) (path : String) : Zone :=
  let p := normalizePath path
  if inRoot (normalizePath s.zoneB) p then .B
  else if s.extraScanEnabled &&
      s.extraScanFolders.any (fun c => inRoot (normalizePath c) p) then .C
  else if normalizePath s.zoneA == "" || inRoot (normalizePath s.zoneA) p then .A
  else .OUT

def settingsNestedB : Settings := { baseSettings with zoneA := "SETs", zoneB := "SETs/Draft" }

/-- Modelled from the spec (the claim's stated operation order): cut at the
first pipe, hash, caret and query mark, convert backslashes, percent-decode
once if a percent is present, and trim *last*. -/
def specParseLinkClaim (raw : String) : Option String :=
  let s1 := cutAt '?' (cutAt '^' (cutAt '#' (cutAt '|' raw.data)))
  let s2 := String.mk (s1.map (fun c => if c == '\\' then '/' else c))
  let s3 :=
    if s2.data.contains '%' then
      match decodeURIComponentJs s2 with
      | some d => d
      | none => s2
    else s2
  let s4 := jsTrim s3
  if s4 == "" then none else some s4

/-- Modelled from the spec (amended order): trim the raw text, cut at the
first pipe, then hash, then caret, then query mark, trim again, convert
backslashes to slashes, percent-decode once when a percent is present
(keeping the undecoded text when decoding fails) *without* any further
trim, and discard empty results. -/
def specParseLinkAmended (raw : String) : Option String :=
  let t := jsTrim raw
  if t == "" then none
  else
    let cut := cutAt '?' (cutAt '^' (cutAt '#' (cutAt '|' t.data)))
    let slashed := String.mk ((jsTrim (String.mk cut)).data.map (fun c => if c == '\\' then '/' else c))
    let decoded :=
      if slashed.data.contains '%' then
        match decodeURIComponentJs slashed with
        | some d => d
        | none => slashed
      else slashed
    if decoded == "" then none else some decoded

def mvA : Move := { fromPath := "a.png", toPath := "x/a.png" }

def mvM : Move := { fromPath := "m.png", toPath := "x/m.png" }

def mvC : Move := { fromPath := "c.png", toPath := "x/c.png" }

def applyScenarioExpected : ApplyOut :=
  { ok := 2, fail := 1, vault := ["b.png", "x/a.png", "x/c.png"],
    history := [{ timestamp := 5, moves := [mvA, mvC] }] }

/-- boolean path-segment-list initial-segment test. -/
def segLeB : List String → List String → Bool
  | [], _ => true
  | _ :: _, [] => false
  | a :: as, b :: bs => a == b && segLeB as bs

/-- entry invariant: the synthetic missing entries aside, the recorded
backlinks of an entry come from pairwise distinct source notes. -/
def DedupOk (e : FileEntry) : Prop :=
  e.tags.contains "missing" = true ∨ (e.referencedByNotes.map Backlink.fromNote).Nodup

def MapDedup (m : EntryMap) : Prop := ∀ e ∈ m, DedupOk e

/-- the target entry of the two-link scenario as the detect pass leaves it
(used by C10's scenario witness). -/
def c10TargetEntry : FileEntry :=
  { path := "p/i.png"
    displayName := "i.png"
    zone := .A
    kind := .attachmentFile
    referencedByNotes :=
      [{ fromNote := "n.md", raw := "p/i.png", cleaned := "p/i.png",
         explicitPath := some "p/i.png" }]
    action := .keep
    tags := []
    conflictWith := []
    virtualFrom := none
    isPreview := false }

/-! ## Claim theorems -/

/-- C1: the claim states that the preview list of the conflict simulation
never contains two entries with the same path.  Evaluating the detect pass
on a vault of three orphan attachments `a/x.png`, `b/x.png`, `c/x.png`
(staging folder `Draft`, global name check off) refutes it: the collision
of the second candidate rolls back the first candidate's registration but
leaves its already-emitted preview entry in place, so the third candidate
re-claims the freed target and the preview ends with two entries whose path
is `Draft/x.png` (while every `virtualFrom` does point at a real entry). -/
theorem c1_duplicate_preview_target :
    ((detectOnce snapThreeOrphans settingsNoGlobal).preview.map
      (fun p => (p.path, p.virtualFrom)))
      = [("Draft/x.png", some "a/x.png"), ("Draft/x.png", some "c/x.png")]
    ∧ ¬ ((detectOnce snapThreeOrphans settingsNoGlobal).preview.map
      (fun p => p.path)).Nodup := by
  constructor
  · decide
  · decide

/-- C2: the claim states that every entry of the report — including the
preview list — that carries a conflict tag has action Keep.  On a vault of
two orphan attachments `a/x.png`, `b/x.png` both planned toward
`Draft/x.png` (global name check off), the first candidate's preview entry
is emitted before the collision; the preview copy shares its `tags` array
with the source entry (shallow copy), so the rollback's conflict tag shows
through it, while its snapshotted action is still the original
`moveToB "orphan"`.  The report's preview therefore contains a
conflict-tagged entry whose action is not Keep. -/
theorem c2_conflict_tagged_preview_not_keep :
    ((detectOnce snapTwoOrphans settingsNoGlobal).preview.map
      (fun p => (p.path, p.virtualFrom, p.tags, p.action)))
      = [("Draft/x.png", some "a/x.png", ["orphan", "conflict-target-occupied"],
          Action.moveToB "orphan")]
    ∧ ((detectOnce snapTwoOrphans settingsNoGlobal).preview.all
        (fun p => !(isConflict p) || (match p.action with | .keep => true | _ => false)))
      = false := by
  constructor
  · decide
  · decide

/-- C3: two distinct attachment entries both planned toward `n/i.png` —
`p/i.png` as a real planned move (placement `same-folder-as-note` from its
referencing note `n/a.md`) and the pre-existing tracked file `n/i.png`
(whose own plan is a self-move that the simulation demotes) — end the
detect pass both tagged `conflict-target-occupied` with action Keep, and
contribute no preview entry. -/
theorem c3_target_occupied_scenario :
    ((detectOnce snapOccupied settingsSameFolder).entries.map
      (fun e => (e.path, e.tags, e.action)))
      = [("n/a.md", [], Action.keep), ("n/b.md", [], Action.keep),
         ("n/i.png", ["conflict-target-occupied"], Action.keep),
         ("p/i.png", ["conflict-target-occupied"], Action.keep)]
    ∧ (detectOnce snapOccupied settingsSameFolder).preview = [] := by
  constructor
  · decide
  · decide

/-- C9: with a cache-consistent state (a clean `dirty` flag implies the
cached report is the detect result of the current snapshot), running
detection twice on the same unchanged snapshot and settings returns the
same report, whatever the two `force` flags are: detection is a pure
function of its snapshot inputs and the cache only replays it. -/
theorem c9_detect_idempotent (snap : Snapshot) (s : Settings) (st : CacheSt)
    (f1 f2 : Bool)
    (hc : st.dirty = false → ∀ r, st.lastReport = some r → r = detectOnce snap s) :
    (detectCached snap s f2 (detectCached snap s f1 st).2).1
      = (detectCached snap s f1 st).1 := by
  unfold detectCached
  cases hlr : st.lastReport with
  | none => cases f2 <;> simp
  | some r =>
    cases f1 with
    | true => cases f2 <;> simp
    | false =>
      cases hd : st.dirty with
      | true => cases f2 <;> simp
      | false =>
        have hr : r = detectOnce snap s := hc hd r hlr
        cases f2 <;> simp [hlr, hd, hr]

/-- witness for C9 at a concrete input: the empty vault, an initially dirty
cache, and two non-forced scans. -/
theorem c9_detect_idempotent_witness :
    (detectCached snapEmpty baseSettings false
      (detectCached snapEmpty baseSettings false { dirty := true, lastReport := none }).2).1
      = (detectCached snapEmpty baseSettings false { dirty := true, lastReport := none }).1 :=
  c9_detect_idempotent snapEmpty baseSettings { dirty := true, lastReport := none } false false
    (fun h => absurd h (by decide))

/-! ## C4: the pick-first multi-backlink policy -/

/-- C4 counterexample: with two backlinks whose first one carries the
explicit path `pics/img.png`, the pick-first planner does *not* plan as if
that single backlink were given: it ignores the explicit path and applies
the placement policy to the first note's folder (reason `multi-pick-first`),
whereas single-backlink planning would return the explicit move. -/
theorem c4_pick_first_ignores_explicit :
    planTargetForMultiBacklink settingsPickFirst entryTwoBacklinks
      = some (.moveTo "notes/attachments/img.png" "multi-pick-first" false)
    ∧ planTargetForOneBacklink settingsPickFirst entryTwoBacklinks blExplicit
      = some (.moveTo "pics/img.png" "single-backlink-explicit" true)
    ∧ planTargetForMultiBacklink settingsPickFirst entryTwoBacklinks
      ≠ planTargetForOneBacklink settingsPickFirst entryTwoBacklinks blExplicit :=
  ⟨by decide, by decide, by decide⟩

/-- C4 (amended): with two or more recorded backlinks and the pick-first
policy, the planner applies the placement policy to the *folder* of the
first recorded backlink's note, ignoring any explicit path on that
backlink, with reason `multi-pick-first`; it agrees with single-backlink
planning on the move target exactly when the first backlink has no explicit
path (the reason strings still differ). -/
theorem c4_pick_first_amended (s : Settings) (e : FileEntry) (bl0 : Backlink)
    (rest : List Backlink) (hrefs : e.referencedByNotes = bl0 :: rest) (hrest : rest ≠ [])
    (hpol : s.multiBacklinkPolicy = .pickFirst) :
    planTargetForMultiBacklink s e
      = (match targetFolderFromPolicy s (dirname bl0.fromNote) with
         | none => none
         | some tf =>
           some (.moveTo
             (normalizePath (if tf != "" then tf ++ "/" ++ lastSeg e.path else lastSeg e.path))
             "multi-pick-first" false))
    ∧ (bl0.explicitPath = none →
        (planTargetForMultiBacklink s e).bind actionTarget
          = (planTargetForOneBacklink s e bl0).bind actionTarget) := by
  have hlen : ¬((bl0 :: rest).length < 2) := by
    have := List.length_pos.mpr hrest
    simp only [List.length_cons]
    omega
  have hmain : planTargetForMultiBacklink s e
      = (match targetFolderFromPolicy s (dirname bl0.fromNote) with
         | none => none
         | some tf =>
           some (.moveTo
             (normalizePath (if tf != "" then tf ++ "/" ++ lastSeg e.path else lastSeg e.path))
             "multi-pick-first" false)) := by
    simp only [planTargetForMultiBacklink, hrefs, hpol, hlen, if_false]
    simp
  refine ⟨hmain, fun hexp => ?_⟩
  rw [hmain]
  cases htf : targetFolderFromPolicy s (dirname bl0.fromNote) with
  | none => simp [planTargetForOneBacklink, hexp, optTruthy, htf]
  | some tf => simp [planTargetForOneBacklink, hexp, optTruthy, htf, actionTarget]

/-- witness for the amended C4 at a concrete input (two plain backlinks,
pick-first policy). -/
theorem c4_pick_first_amended_witness :
    planTargetForMultiBacklink settingsPickFirst entryTwoPlain
      = (match targetFolderFromPolicy settingsPickFirst (dirname blPlain.fromNote) with
         | none => none
         | some tf =>
           some (.moveTo
             (normalizePath
               (if tf != "" then tf ++ "/" ++ lastSeg entryTwoPlain.path
                else lastSeg entryTwoPlain.path))
             "multi-pick-first" false))
    ∧ (blPlain.explicitPath = none →
        (planTargetForMultiBacklink settingsPickFirst entryTwoPlain).bind actionTarget
          = (planTargetForOneBacklink settingsPickFirst entryTwoPlain blPlain).bind actionTarget) :=
  c4_pick_first_amended settingsPickFirst entryTwoPlain blPlain [blPlain2] rfl (by decide) rfl

/-! ## C5: zone classification -/

/-- C5: `zoneOf` classifies every path by the fixed priority B, extra-scan
folders (C), A, OUT with the `root`-or-`root/`-prefix containment test;
an empty A root makes every path outside B and C classify as A; and a path
contained in the B root is always B, also when B nests inside A. -/
theorem c5_zone_priority (s : Settings) (path : String) :
    zoneOf s path = zoneSpec s path
    ∧ (normalizePath s.zoneA = "" →
        zoneOf s path ≠ .B → zoneOf s path ≠ .C → zoneOf s path = .A)
    ∧ (inRoot (normalizePath s.zoneB) (normalizePath path) = true → zoneOf s path = .B) := by
  refine ⟨?_, ?_, ?_⟩
  · simp only [zoneOf, zoneSpec]
    cases h1 : inRoot (normalizePath s.zoneB) (normalizePath path) with
    | true => simp [h1]
    | false =>
      cases h2 : (s.extraScanEnabled && s.extraScanFolders.any
          (fun folder => inRoot (normalizePath folder) (normalizePath path))) with
      | true => simp [h1, h2]
      | false =>
        cases h3 : (normalizePath s.zoneA == "") with
        | true => simp [h1, h2, h3]
        | false =>
          have hne : (normalizePath s.zoneA != "") = true := by simp [bne, h3]
          simp [h1, h2, h3, inRoot, hne]
  · intro hA hB hC
    cases h1 : inRoot (normalizePath s.zoneB) (normalizePath path) with
    | true => exact absurd (by simp [zoneOf, h1]) hB
    | false =>
      cases h2 : (s.extraScanEnabled && s.extraScanFolders.any
          (fun folder => inRoot (normalizePath folder) (normalizePath path))) with
      | true => exact absurd (by simp [zoneOf, h1, h2]) hC
      | false => simp [zoneOf, h1, h2, hA]
  · intro h
    simp [zoneOf, h]

/-- witness for C5 at a concrete input: a staging root nested inside the
workspace root still wins for paths under it. -/
theorem c5_zone_priority_witness :
    zoneOf settingsNestedB "SETs/Draft/x.png" = .B :=
  (c5_zone_priority settingsNestedB "SETs/Draft/x.png").2.2 (by decide)

/-! ## C6: link parsing -/

/-- C6 counterexample: the code trims *before* percent-decoding and never
re-trims afterwards, so whitespace produced by the decode step survives:
on `a%20` the parser returns `"a "` (trailing space) while the claim's
stated order (decode, then trim) would return `"a"`. -/
theorem c6_trim_order_counterexample :
    parseLink "a%20" = some "a "
    ∧ specParseLinkClaim "a%20" = some "a"
    ∧ parseLink "a%20" ≠ specParseLinkClaim "a%20" :=
  ⟨by decide, by decide, by decide⟩

/-- C6 (amended): link parsing cuts at the first `|`, then `#`, then `^`,
then `?`, trims, converts backslashes to `/`, and then percent-decodes once
if a `%` is present (with no further trim); the raw link
`folder/Note Name#Heading^block|Display` parses to `folder/Note Name`,
which is recognized as explicit because it contains `/`. -/
theorem c6_parse_amended :
    (∀ raw, parseLink raw = specParseLinkAmended raw)
    ∧ parseLink "folder/Note Name#Heading^block|Display" = some "folder/Note Name"
    ∧ ("folder/Note Name").data.contains '/' = true := by
  refine ⟨fun raw => rfl, by decide, by decide⟩

/-! ## C7: applyPlan, per-move failures and the undo history -/

/-- instrumented fold characterization: the counters, the collected
successful moves, and the per-move continue-on-failure behavior of the
`applyPlan` loop. -/
theorem applyFold_spec (moves : List Move) :
    ∀ (v : List String) (ok fl : Nat) (succ : List Move),
      (moves.foldl applyMoveStep (⟨v, ok, fl, succ⟩ : ApplySt)).ok
          = ok + (successfulMovesFrom v moves).length
      ∧ (moves.foldl applyMoveStep (⟨v, ok, fl, succ⟩ : ApplySt)).fail
            + (successfulMovesFrom v moves).length
          = fl + moves.length
      ∧ (moves.foldl applyMoveStep (⟨v, ok, fl, succ⟩ : ApplySt)).succ
          = succ ++ successfulMovesFrom v moves := by
  induction moves with
  | nil => intro v ok fl succ; simp [successfulMovesFrom]
  | cons mv ms ih =>
    intro v ok fl succ
    by_cases hOk : (v.contains mv.fromPath && !v.contains mv.toPath) = true
    · rcases Bool.and_eq_true_iff.mp hOk with ⟨h1, h2⟩
      have h2' : v.contains mv.toPath = false := by
        cases hT : v.contains mv.toPath with
        | false => rfl
        | true => rw [hT] at h2; exact absurd h2 (by decide)
      have hstep : applyMoveStep (⟨v, ok, fl, succ⟩ : ApplySt) mv
          = (⟨renameInVault v mv, ok + 1, fl, succ ++ [mv]⟩ : ApplySt) := by
        unfold applyMoveStep
        dsimp only
        rw [if_neg (by intro hcon; rw [h1] at hcon; exact absurd hcon (by decide)),
          if_neg (by intro hcon; rw [h2'] at hcon; exact absurd hcon (by decide))]
      have hsf : successfulMovesFrom v (mv :: ms)
          = mv :: successfulMovesFrom (renameInVault v mv) ms := by
        simp only [successfulMovesFrom]
        rw [if_pos hOk]
      obtain ⟨ha, hb, hc⟩ := ih (renameInVault v mv) (ok + 1) fl (succ ++ [mv])
      rw [List.foldl_cons, hstep, hsf]
      refine ⟨?_, ?_, ?_⟩
      · rw [ha]; simp only [List.length_cons]; omega
      · simp only [List.length_cons]; omega
      · rw [hc]; simp
    · have hsf : successfulMovesFrom v (mv :: ms) = successfulMovesFrom v ms := by
        simp only [successfulMovesFrom]
        rw [if_neg hOk]
      have hstep : applyMoveStep (⟨v, ok, fl, succ⟩ : ApplySt) mv
          = (⟨v, ok, fl + 1, succ⟩ : ApplySt) := by
        unfold applyMoveStep
        dsimp only
        cases hf : v.contains mv.fromPath with
        | false => rw [if_pos (by decide : ((!false) = true))]
        | true =>
          have ht : v.contains mv.toPath = true := by
            cases hT : v.contains mv.toPath with
            | true => rfl
            | false => exact absurd (by rw [hf, hT]; decide) hOk
          rw [if_neg (by decide : ¬((!true) = true)), if_pos ht]
      obtain ⟨ha, hb, hc⟩ := ih v ok (fl + 1) succ
      rw [List.foldl_cons, hstep, hsf]
      refine ⟨ha, ?_, hc⟩
      simp only [List.length_cons]
      omega

/-- C7: during `applyPlan` every move is attempted (failures are counted
and do not abort the batch, so ok + fail equals the number of planned
moves); exactly one UndoEntry holding exactly the successful moves is
pushed iff at least one move succeeded; the history never exceeds 10
entries, the oldest being evicted from the front on overflow; and the
concrete 3-move batch with one missing source reports 2 succeeded, 1
failed, and one UndoEntry with the 2 successful moves. -/
theorem c7_apply_plan :
    (∀ (vault : List String) (moves : List Move) (history : List UndoEntry) (now : Nat),
      (applyMoves vault moves history now).ok + (applyMoves vault moves history now).fail
          = moves.length
      ∧ (applyMoves vault moves history now).ok = (successfulMovesFrom vault moves).length
      ∧ (applyMoves vault moves history now).history =
          (if successfulMovesFrom vault moves = [] then history
           else trimHistory
             (history ++ [{ timestamp := now, moves := successfulMovesFrom vault moves }]))
      ∧ (applyMoves vault moves history now).history.length ≤ max history.length maxUndoHistory)
    ∧ applyMoves ["a.png", "b.png", "c.png"] [mvA, mvM, mvC] [] 5 = applyScenarioExpected := by
  constructor
  · intro vault moves history now
    obtain ⟨ha, hb, hc⟩ := applyFold_spec moves vault 0 0 []
    have hc' : (moves.foldl applyMoveStep (⟨vault, 0, 0, []⟩ : ApplySt)).succ
        = successfulMovesFrom vault moves := by rw [hc]; simp
    refine ⟨?_, ?_, ?_, ?_⟩
    · simp only [applyMoves]
      omega
    · simp only [applyMoves]
      omega
    · simp only [applyMoves, hc']
      by_cases he : successfulMovesFrom vault moves = []
      · simp [he]
      · simp [he, List.isEmpty_iff]
    · simp only [applyMoves, hc']
      by_cases he : successfulMovesFrom vault moves = []
      · simp only [he, List.isEmpty_iff]
        simp
      · have hlen : (trimHistory
            (history ++ [{ timestamp := now, moves := successfulMovesFrom vault moves }])).length
            ≤ maxUndoHistory := by
          simp only [trimHistory, List.length_drop]
          omega
        have hne : (successfulMovesFrom vault moves).isEmpty = false := by
          simp [List.isEmpty_iff, he]
        simp only [hne, Bool.false_eq_true, if_false]
        exact le_trans hlen (le_max_right _ _)
  · decide

/-! ## C8: lowest common ancestor folder -/

theorem segLeB_refl (l : List String) : segLeB l l = true := by
  induction l with
  | nil => rfl
  | cons a as ih => simp [segLeB, ih]

theorem segLeB_trans : ∀ a b c, segLeB a b = true → segLeB b c = true → segLeB a c = true := by
  intro a
  induction a with
  | nil => intro b c _ _; rfl
  | cons x xs ih =>
    intro b c hab hbc
    cases b with
    | nil => simp [segLeB] at hab
    | cons y ys =>
      cases c with
      | nil => simp [segLeB] at hbc
      | cons z zs =>
        simp only [segLeB, Bool.and_eq_true, beq_iff_eq] at *
        exact ⟨hab.1.trans hbc.1, ih ys zs hab.2 hbc.2⟩

theorem lcp_le_left : ∀ a b, segLeB (lcpSegs a b) a = true := by
  intro a
  induction a with
  | nil => intro b; cases b <;> rfl
  | cons x xs ih =>
    intro b
    cases b with
    | nil => rfl
    | cons y ys =>
      simp only [lcpSegs]
      by_cases h : (x == y) = true
      · simp [h, segLeB, ih ys]
      · simp [h, segLeB]

theorem lcp_le_right : ∀ a b, segLeB (lcpSegs a b) b = true := by
  intro a
  induction a with
  | nil => intro b; cases b <;> rfl
  | cons x xs ih =>
    intro b
    cases b with
    | nil => rfl
    | cons y ys =>
      simp only [lcpSegs]
      by_cases h : (x == y) = true
      · obtain rfl := beq_iff_eq.mp h
        simp [segLeB, ih ys]
      · simp [h, segLeB]

theorem le_lcp : ∀ p a b, segLeB p a = true → segLeB p b = true →
    segLeB p (lcpSegs a b) = true := by
  intro p
  induction p with
  | nil => intro a b _ _; rfl
  | cons x xs ih =>
    intro a b ha hb
    cases a with
    | nil => simp [segLeB] at ha
    | cons y ys =>
      cases b with
      | nil => simp [segLeB] at hb
      | cons z zs =>
        simp only [segLeB, Bool.and_eq_true, beq_iff_eq] at ha hb
        have hyz : (y == z) = true := by simp [← ha.1, ← hb.1]
        simp only [lcpSegs, hyz, if_true, segLeB, Bool.and_eq_true, beq_iff_eq]
        exact ⟨ha.1, ih ys zs ha.2 hb.2⟩

theorem lcaFold_le (t : List (List String)) : ∀ acc,
    segLeB (t.foldl lcpSegs acc) acc = true
    ∧ ∀ x ∈ t, segLeB (t.foldl lcpSegs acc) x = true := by
  induction t with
  | nil => intro acc; exact ⟨segLeB_refl acc, by simp⟩
  | cons y ys ih =>
    intro acc
    have h := ih (lcpSegs acc y)
    simp only [List.foldl_cons]
    constructor
    · exact segLeB_trans _ _ _ h.1 (lcp_le_left acc y)
    · intro x hx
      rcases List.mem_cons.mp hx with rfl | hx'
      · exact segLeB_trans _ _ _ h.1 (lcp_le_right acc x)
      · exact h.2 x hx'

theorem lcaFold_ge (t : List (List String)) : ∀ acc p,
    segLeB p acc = true → (∀ x ∈ t, segLeB p x = true) →
    segLeB p (t.foldl lcpSegs acc) = true := by
  induction t with
  | nil => intro acc p h _; exact h
  | cons y ys ih =>
    intro acc p hacc hall
    simp only [List.foldl_cons]
    exact ih _ p (le_lcp p acc y hacc (hall y (by simp))) (fun x hx => hall x (by simp [hx]))

/-- C8: the three specified evaluations of `lcaFolder`, and, for every
nonempty folder list, its segment-level result is a common initial-segment
prefix of every folder's segments and is the longest such prefix. -/
theorem c8_lca :
    lcaFolder ["a/b/c", "a/b/d"] = "a/b"
    ∧ lcaFolder ["a/b", "x/y"] = ""
    ∧ lcaFolder ["only/one"] = "only/one"
    ∧ ∀ l, l ≠ [] →
        (∀ f ∈ l, segLeB (lcaSegsOf l) (pathSegs f) = true)
        ∧ ∀ p, (∀ f ∈ l, segLeB p (pathSegs f) = true) → segLeB p (lcaSegsOf l) = true := by
  refine ⟨by decide, by decide, by decide, ?_⟩
  intro l hl
  obtain ⟨f0, fs, rfl⟩ := List.exists_cons_of_ne_nil hl
  have hsegs : lcaSegsOf (f0 :: fs) = (fs.map pathSegs).foldl lcpSegs (pathSegs f0) := by
    simp [lcaSegsOf]
  constructor
  · intro f hf
    rcases List.mem_cons.mp hf with rfl | hf'
    · rw [hsegs]; exact (lcaFold_le (fs.map pathSegs) (pathSegs f)).1
    · rw [hsegs]
      exact (lcaFold_le (fs.map pathSegs) (pathSegs f0)).2 (pathSegs f)
        (List.mem_map_of_mem pathSegs hf')
  · intro p hp
    rw [hsegs]
    refine lcaFold_ge (fs.map pathSegs) (pathSegs f0) p (hp f0 (by simp)) ?_
    intro x hx
    rcases List.mem_map.mp hx with ⟨f, hf, rfl⟩
    exact hp f (by simp [hf])

/-- witness for C8's general part at a concrete input. -/
theorem c8_lca_witness :
    segLeB (lcaSegsOf ["a/b"]) (pathSegs "a/b") = true :=
  (c8_lca.2.2.2 ["a/b"] (by decide)).1 "a/b" (by decide)

/-! ## C10: backlink deduplication by source note -/

theorem foldl_preserve {σ α : Type} (Inv : σ → Prop) (f : σ → α → σ)
    (hstep : ∀ st x, Inv st → Inv (f st x)) :
    ∀ (l : List α) (st : σ), Inv st → Inv (l.foldl f st) := by
  intro l
  induction l with
  | nil => intro st h; exact h
  | cons x xs ih => intro st h; exact ih (f st x) (hstep st x h)

theorem mapDedup_nil : MapDedup [] := by
  intro e he
  cases he

theorem mapDedup_update (m : EntryMap) (p : String) (f : FileEntry → FileEntry)
    (hm : MapDedup m) (hf : ∀ e, DedupOk e → DedupOk (f e)) :
    MapDedup (updateEntry m p f) := by
  intro e he
  rcases List.mem_map.mp he with ⟨e0, he0, rfl⟩
  by_cases h : (e0.path == p) = true
  · rw [if_pos h]; exact hf e0 (hm e0 he0)
  · rw [if_neg h]; exact hm e0 he0

theorem mapDedup_append (m : EntryMap) (e : FileEntry)
    (hm : MapDedup m) (he : DedupOk e) : MapDedup (m ++ [e]) := by
  intro x hx
  rcases List.mem_append.mp hx with hx1 | hx2
  · exact hm x hx1
  · rw [List.mem_singleton.mp hx2]; exact he

theorem contains_pushTag (l : List String) (t t' : String) (h : l.contains t = true) :
    (pushTag l t').contains t = true := by
  unfold pushTag
  by_cases hc : l.contains t' = true
  · rw [if_pos hc]; exact h
  · rw [if_neg hc]
    have hmem : t ∈ l := by simpa using h
    simp [hmem]

theorem dedup_keepUpd : ∀ e, DedupOk e → DedupOk (keepUpd e) := fun _ hd => hd

theorem dedup_ensureConflictUpd (tag : String) :
    ∀ e, DedupOk e → DedupOk (ensureConflictUpd tag e) := by
  intro e hd
  cases hd with
  | inl h => exact Or.inl (contains_pushTag _ _ _ h)
  | inr h => exact Or.inr h

theorem dedup_conflictKeep (tag : String) :
    ∀ e, DedupOk e → DedupOk (keepUpd (ensureConflictUpd tag e)) :=
  fun e hd => dedup_keepUpd _ (dedup_ensureConflictUpd tag e hd)

theorem ensurePlain_dedup (s : Settings) (m : EntryMap) (path : String)
    (hm : MapDedup m) : MapDedup (ensurePlain s m path) := by
  unfold ensurePlain
  by_cases h : (m.any (fun e => e.path == normalizePath path)) = true
  · rw [if_pos h]; exact hm
  · rw [if_neg h]
    refine mapDedup_append m _ hm (Or.inr ?_)
    simp [mkPlainEntry]

theorem ensureMissing_dedup (m : EntryMap) (key : String) (bls : List Backlink)
    (hm : MapDedup m) : MapDedup (ensureMissingEntry m key bls) := by
  unfold ensureMissingEntry
  by_cases h : (m.any (fun e => e.path == normalizePath ("__missing/" ++ key))) = true
  · rw [if_pos h]
    exact mapDedup_update m _ _ hm (fun e _ => Or.inl rfl)
  · rw [if_neg h]
    exact mapDedup_append m _ hm (Or.inl rfl)

theorem pushBacklink_dedup (s : Settings) (bl : Backlink) :
    ∀ e, DedupOk e → DedupOk (
      if e.referencedByNotes.any (fun x => x.fromNote == bl.fromNote) then
        { e with zone := zoneOf s e.path, kind := kindOf s e.path }
      else { e with zone := zoneOf s e.path, kind := kindOf s e.path,
                    referencedByNotes := e.referencedByNotes ++ [bl] }) := by
  intro e hd
  by_cases hany : (e.referencedByNotes.any (fun x => x.fromNote == bl.fromNote)) = true
  · rw [if_pos hany]; exact hd
  · rw [if_neg hany]
    cases hd with
    | inl h => exact Or.inl h
    | inr h =>
      refine Or.inr ?_
      show ((e.referencedByNotes ++ [bl]).map Backlink.fromNote).Nodup
      rw [List.map_append, List.nodup_append]
      refine ⟨h, List.nodup_singleton _, ?_⟩
      intro a ha hb
      rcases List.mem_map.mp ha with ⟨x, hx, rfl⟩
      simp only [List.map_cons, List.map_nil, List.mem_singleton] at hb
      apply hany
      rw [List.any_eq_true]
      exact ⟨x, hx, beq_iff_eq.mpr hb⟩

theorem processRaw_dedup (snap : Snapshot) (s : Settings) (fromNote : String)
    (st : ScanSt) (raw : String) (hm : MapDedup st.map) :
    MapDedup (processRaw snap s fromNote st raw).map := by
  unfold processRaw
  split
  · exact hm
  · rename_i cleaned hcleq
    split
    · exact hm
    · split
      · exact hm
      · dsimp only
        split
        · dsimp only
          exact mapDedup_update _ _ _ (ensurePlain_dedup s st.map _ hm)
            (pushBacklink_dedup s
              { fromNote := fromNote, raw := raw, cleaned := cleaned,
                explicitPath :=
                  if cleaned.data.contains '/' = true then
                    some (normalizeExplicitToVaultPath cleaned fromNote)
                  else none })
        · exact hm

theorem processNote_dedup (snap : Snapshot) (s : Settings) (st : ScanSt)
    (notePath : String) (hm : MapDedup st.map) :
    MapDedup (processNote snap s st notePath).map := by
  unfold processNote
  split
  · exact hm
  · exact foldl_preserve (fun st0 : ScanSt => MapDedup st0.map) _
      (fun st0 raw h => processRaw_dedup snap s notePath st0 raw h) _ st hm

theorem planEntry_dedup (s : Settings) : ∀ e, DedupOk e → DedupOk (planEntry s e) := by
  intro e hd
  unfold planEntry
  split
  · exact hd
  · split
    · exact hd
    · split
      · exact hd
      · split
        · exact hd
        · split
          · cases hd with
            | inl h => exact Or.inl (contains_pushTag _ _ _ h)
            | inr h => exact Or.inr h
          · exact hd
          · exact hd

theorem rollbackPlanned_dedup (snap : Snapshot) (st : SimSt) (entryPath tag : String)
    (hm : MapDedup st.map) : MapDedup (rollbackPlanned snap st entryPath tag).map := by
  unfold rollbackPlanned
  split
  · exact hm
  · split
    · exact mapDedup_update _ _ _ hm (dedup_conflictKeep tag)
    · exact mapDedup_update _ _ _ hm (dedup_conflictKeep tag)

theorem markBothAndRollback_dedup (snap : Snapshot) (st : SimSt)
    (aPath bPath tag : String) (hm : MapDedup st.map) :
    MapDedup (markBothAndRollback snap st aPath bPath tag).map := by
  unfold markBothAndRollback
  dsimp only
  have h1 : MapDedup (updateEntry st.map aPath (fun e => keepUpd (ensureConflictUpd tag e))) :=
    mapDedup_update _ _ _ hm (dedup_conflictKeep tag)
  split
  · exact h1
  · exact rollbackPlanned_dedup snap _ bPath tag
      (mapDedup_update _ _ _ h1 (dedup_conflictKeep tag))

theorem simStep_dedup (snap : Snapshot) (s : Settings) (st : SimSt) (candPath : String)
    (hm : MapDedup st.map) : MapDedup (simStep snap s st candPath).map := by
  unfold simStep
  split
  · exact hm
  · split
    · exact hm
    · split
      · exact mapDedup_update _ _ _ hm dedup_keepUpd
      · split
        · exact mapDedup_update _ _ _ hm dedup_keepUpd
        · try dsimp only
          split
          · exact markBothAndRollback_dedup snap st _ _ _ hm
          · split
            · try dsimp only
              split
              · exact mapDedup_update _ _ _
                  (mapDedup_update _ _ _ hm (dedup_conflictKeep _)) (dedup_conflictKeep _)
              · exact mapDedup_update _ _ _ hm (dedup_conflictKeep _)
            · try dsimp only
              split
              · exact markBothAndRollback_dedup snap st _ _ _ hm
              · try dsimp only
                split
                · rename_i st1 heq
                  split at heq
                  · split at heq
                    · injection heq with h2
                      subst h2
                      exact markBothAndRollback_dedup snap st _ _ _ hm
                    · split at heq
                      · exact Option.noConfusion heq
                      · injection heq with h2
                        subst h2
                        refine mapDedup_update _ _ _ hm ?_
                        intro e hd
                        cases hd with
                        | inl h => exact Or.inl (contains_pushTag _ _ _ h)
                        | inr h => exact Or.inr h
                  · exact Option.noConfusion heq
                · exact hm

theorem simulate_dedup (snap : Snapshot) (s : Settings) (m : EntryMap)
    (hm : MapDedup m) : MapDedup (simulate snap s m).1 := by
  unfold simulate
  dsimp only
  exact foldl_preserve (fun st : SimSt => MapDedup st.map) (simStep snap s)
    (fun st x h => simStep_dedup snap s st x h) _ _ hm

theorem mapDedup_plan (s : Settings) (m : EntryMap) (hm : MapDedup m) :
    MapDedup (m.map (planEntry s)) := by
  intro e he
  rcases List.mem_map.mp he with ⟨e0, he0, rfl⟩
  exact planEntry_dedup s e0 (hm e0 he0)

theorem mem_reportEntries (m : EntryMap) (pp : List String) (e : FileEntry)
    (he : e ∈ reportEntriesOf m pp) : e ∈ m :=
  (List.mem_filter.mp he).1

/-- C10: for every snapshot and settings, every non-missing entry of the
report records at most one backlink per referencing note (the `fromNote`
fields are pairwise distinct, because a later link of the same note to the
same target is discarded); and in the concrete two-link scenario the entry
keeps exactly the backlink built from the *first* link even though the
second link's cleaned text and explicit path differ. -/
theorem c10_backlink_dedupe :
    (∀ (snap : Snapshot) (s : Settings), ∀ e ∈ (detectOnce snap s).entries,
        e.tags.contains "missing" = false →
        (e.referencedByNotes.map Backlink.fromNote).Nodup)
    ∧ (findEntry (detectOnce snapTwoLinks baseSettings).entries "p/i.png").map
        (fun e => e.referencedByNotes)
      = some [{ fromNote := "n.md", raw := "p/i.png", cleaned := "p/i.png",
                explicitPath := some "p/i.png" }] := by
  constructor
  · intro snap s e he hmiss
    unfold detectOnce at he
    have hin := mem_reportEntries _ _ e he
    have h1 : MapDedup ((scanInventoryFiles snap s).foldl (ensurePlain s) []) :=
      foldl_preserve MapDedup (ensurePlain s)
        (fun m x hm => ensurePlain_dedup s m x hm) _ _ mapDedup_nil
    have h2 : MapDedup ((listNotesByScope snap s).foldl (processNote snap s)
        ({ map := (scanInventoryFiles snap s).foldl (ensurePlain s) [], missing := [] }
          : ScanSt)).map :=
      foldl_preserve (fun st0 : ScanSt => MapDedup st0.map) (processNote snap s)
        (fun st0 x h => processNote_dedup snap s st0 x h) _ _ h1
    have h3 : MapDedup (((listNotesByScope snap s).foldl (processNote snap s)
        ({ map := (scanInventoryFiles snap s).foldl (ensurePlain s) [], missing := [] }
          : ScanSt)).missing.foldl (fun m kv => ensureMissingEntry m kv.1 kv.2)
        ((listNotesByScope snap s).foldl (processNote snap s)
          ({ map := (scanInventoryFiles snap s).foldl (ensurePlain s) [], missing := [] }
            : ScanSt)).map) :=
      foldl_preserve MapDedup _
        (fun m kv hmm => ensureMissing_dedup m kv.1 kv.2 hmm) _ _ h2
    have h4 := mapDedup_plan s _ h3
    have h5 := simulate_dedup snap s _ h4
    have hd := h5 e hin
    cases hd with
    | inl h => rw [h] at hmiss; exact absurd hmiss (by decide)
    | inr h => exact h
  · decide

/-- witness for C10's general part at a concrete input: the resolved target
entry of the two-link scenario. -/
theorem c10_backlink_dedupe_witness :
    (c10TargetEntry.referencedByNotes.map Backlink.fromNote).Nodup :=
  c10_backlink_dedupe.1 snapTwoLinks baseSettings c10TargetEntry (by decide) (by decide)

end Org
